import Mathlib

/-!
Shallow embedding of the real-time voice pipeline of this repository
(backend/routes/voice.py and backend/services/voice.py), together with
theorems checking the natural-language specification against it.

Conventions of the embedding:
* Byte strings are `List Nat` (each element a byte value).
* 16-bit PCM samples are `Int` values in the signed 16-bit range.
* Fallible operations (Python exceptions) return `Option`.
* External collaborators (Supabase, Deepgram, ElevenLabs, the agent) are
  not part of the embedded code; their outcomes enter as parameters
  (for instance the response generator's result is an `Option String`,
  `none` modelling `agent.run` raising an exception).
-/

/-! ## Session state and registry (routes/voice.py)

A Python session dict
`{'stream_sid', 'from_number', 'caller', ..., 'transcript', 'transcript_buffer', 'is_processing'}`
is embedded as `Session`.  Fields backed by external collaborators
(`caller`, `agent`, `start_time`) are represented by the event data they
are deterministically built from (`from_number`) or elided. -/

structure Session where
  stream_sid : String
  from_number : String
  transcript : List String
  transcript_buffer : List String
  is_processing : Bool
deriving DecidableEq

/-- The global `active_calls : Dict[str, Dict]` map, embedded as an
association list with Python-dict semantics (assignment replaces the
binding of an existing key, otherwise adds a new one). -/
abbrev Registry : Type := List (String × Session)

def lookupCall : Registry → String → Option Session
  | [], _ => none
  | (k, v) :: rest, sid => if k = sid then some v else lookupCall rest sid

def setCall : Registry → String → Session → Registry
  | [], sid, s => [(sid, s)]
  | (k, v) :: rest, sid, s =>
    if k = sid then (sid, s) :: rest else (k, v) :: setCall rest sid s

def removeCall : Registry → String → Registry
  | [], _ => []
  | (k, v) :: rest, sid => if k = sid then rest else (k, v) :: removeCall rest sid

/-- Fresh session built by the `start` branch of `media_stream_handler`
(voice.py lines 118-129): empty transcript, empty transcript_buffer,
`is_processing = False`. -/
def mkSession (stream_sid from_number : String) : Session :=
  { stream_sid := stream_sid
    from_number := from_number
    transcript := []
    transcript_buffer := []
    is_processing := false }

/-- The `start` branch of `media_stream_handler` (voice.py lines 72-129):
`active_calls[call_sid] = {...}` is an unconditional dict assignment —
there is no membership check, so an existing session under the same
call id is replaced. -/
def media_stream_start (reg : Registry) (call_sid stream_sid from_number : String) :
    Registry :=
  setCall reg call_sid (mkSession stream_sid from_number)

/-! ## Turn controller (process_agent_response, voice.py lines 241-295) -/

/-- Outcome of one invocation of `process_agent_response`. -/
inductive TurnResult where
  | accepted
  | dropped
  | noSession
deriving DecidableEq

/-- The fixed fallback apology phrase of the except-branch
(voice.py line 289). -/
def fallbackText : String := "I\x27m sorry, I didn\x27t catch that. Could you please repeat?"

/-- Lines 261-266 of voice.py: the turn-lock guard.  If
`session['is_processing']` is already true the call returns (utterance
dropped); otherwise the lock is set and the cycle may run. -/
def tryAcceptTurn (s : Session) : Session × TurnResult :=
  if s.is_processing then (s, TurnResult.dropped)
  else ({ s with is_processing := true }, TurnResult.accepted)

/-- Lines 268-295 of voice.py: the body of an accepted cycle, operating
on the session object.  `genResult = some reply` models `agent.run`
returning `reply`; `genResult = none` models it raising.  The returned
list is the sequence of texts handed to `send_agent_response` (playback).
On success: append the caller turn, append the agent turn, play the
reply.  On failure: the caller turn was already appended inside the
`try` before `agent.run`, no agent turn is appended, and the fallback
phrase is played.  The `finally` clears `is_processing` in both cases. -/
def runTurnBody (s : Session) (user_message : String) (genResult : Option String) :
    Session × List String :=
  match genResult with
  | some reply =>
    ({ s with
        transcript := s.transcript ++ ["Customer: " ++ user_message, "Agent: " ++ reply]
        is_processing := false },
     [reply])
  | none =>
    ({ s with
        transcript := s.transcript ++ ["Customer: " ++ user_message]
        is_processing := false },
     [fallbackText])

/-- `process_agent_response` (voice.py lines 241-295) run to completion
with no interleaving: line 256 membership check, lines 261-266 lock
guard, lines 268-295 cycle body.  Returns the updated registry, the
turn outcome, and the texts handed to playback. -/
def process_agent_response (reg : Registry) (call_sid user_message : String)
    (genResult : Option String) : Registry × TurnResult × List String :=
  match lookupCall reg call_sid with
  | none => (reg, TurnResult.noSession, [])
  | some s =>
    if s.is_processing then (reg, TurnResult.dropped, [])
    else
      let s1 := (tryAcceptTurn s).1
      let r := runTurnBody s1 user_message genResult
      (setCall reg call_sid r.1, TurnResult.accepted, r.2)

/-- Python's `str.strip()`: drop leading and trailing whitespace
(computed on the character list so it evaluates inside the kernel). -/
def pyStrip (s : String) : String :=
  String.mk (((s.data.dropWhile Char.isWhitespace).reverse.dropWhile
    Char.isWhitespace).reverse)

/-- The `on_transcript` callback (voice.py lines 131-141): a final,
non-whitespace transcript is appended to the session's
`transcript_buffer` and a `process_agent_response` task is created
(returned Bool).  Anything else does nothing.  A missing session makes
the Python raise `KeyError` out of the callback, leaving the registry
unchanged; that is embedded as a no-op. -/
def on_transcript (reg : Registry) (call_sid transcript : String) (is_final : Bool) :
    Registry × Bool :=
  if is_final ∧ pyStrip transcript ≠ "" then
    match lookupCall reg call_sid with
    | some s =>
      (setCall reg call_sid
        { s with transcript_buffer := s.transcript_buffer ++ [transcript] }, true)
    | none => (reg, false)
  else (reg, false)

/-- `on_transcript` followed by the task it spawned (sequential
composition of voice.py lines 131-141 with lines 241-295; the returned
`Option TurnResult` is `none` when no task was spawned). -/
def on_transcript_then_process (reg : Registry) (call_sid text : String)
    (is_final : Bool) (genResult : Option String) :
    Registry × Option TurnResult × List String :=
  let r1 := on_transcript reg call_sid text is_final
  if r1.2 then
    let r2 := process_agent_response r1.1 call_sid text genResult
    (r2.1, some r2.2.1, r2.2.2)
  else (r1.1, none, [])

/-! ## Turn-lock transition system (for the lock-discipline claims)

The lock of one session object evolves only through the two phases of
`process_agent_response`: the guard (lines 256-266) and the cycle body
with its `finally` (lines 268-295). -/

inductive TurnEv where
  | accept (msg : String)
  | finish (msg : String) (genResult : Option String)

def turnStep (s : Session) : TurnEv → Session
  | TurnEv.accept _ => (tryAcceptTurn s).1
  | TurnEv.finish msg gen => (runTurnBody s msg gen).1

-- sanity examples (concrete evaluation of the embedded code)
example : (tryAcceptTurn (mkSession "MZ" "+1")).2 = TurnResult.accepted := by decide
example :
    (process_agent_response [("CA", mkSession "MZ" "+1")] "CA" "hi" (some "yo")).2.1 =
      TurnResult.accepted := by decide

/-! ## Audio codec (services/voice.py lines 20-79)

`mulaw_to_pcm` and `pcm_to_mulaw` are thin wrappers around CPython's
`audioop.ulaw2lin`, `audioop.lin2ulaw` and `audioop.ratecv`; those C
routines are embedded here following Modules/audioop.c.  16-bit frames
are read and written little-endian; `audioop.ratecv` internally scales
samples to 32 bits (`value << 16` on read, `>> 16` on write) and, with
the default filter weights 1 and 0, interpolates
`(prev*d + cur*(outrate-d)) / outrate` with truncation toward zero. -/

/-- Wrap an integer to the signed 16-bit range (C cast to int16_t). -/
def toInt16 (s : Int) : Int :=
  let v := (s % 65536).toNat
  if v < 32768 then (v : Int) else (v : Int) - 65536

/-- Little-endian signed 16-bit value of a byte pair (GETSAMPLE, size 2). -/
def int16OfBytes (lo hi : Nat) : Int :=
  let v := lo % 256 + 256 * (hi % 256)
  if v < 32768 then (v : Int) else (v : Int) - 65536

/-- Little-endian byte pair of a 16-bit sample (SETSAMPLE, size 2). -/
def bytesOfInt16 (s : Int) : List Nat :=
  let v := (s % 65536).toNat
  [v % 256, v / 256]

/-- A sample list as a byte string (each sample two bytes, little-endian). -/
def samplesToBytes (ss : List Int) : List Nat :=
  (ss.map bytesOfInt16).flatten

/-- A byte string as a sample list; `none` when the byte count is odd
(audioop raises "not a whole number of frames"). -/
def bytesToSamples : List Nat → Option (List Int)
  | [] => some []
  | [_] => none
  | lo :: hi :: rest => (bytesToSamples rest).map (fun ss => int16OfBytes lo hi :: ss)

/-- `st_ulaw2linear16` of audioop.c: decode one 8-bit mu-law code to a
16-bit linear sample (BIAS 0x84, QUANT_MASK 0xF, SEG_MASK 0x70,
SEG_SHIFT 4, SIGN_BIT 0x80). -/
def st_ulaw2linear16 (u : Nat) : Int :=
  let uv := 255 - u % 256
  let t0 := ((uv &&& 0xF) <<< 3) + 0x84
  let t := t0 <<< ((uv &&& 0x70) >>> 4)
  if uv &&& 0x80 ≠ 0 then (0x84 : Int) - (t : Int) else (t : Int) - 0x84

/-- Segment search of audioop.c (`search(val, seg_uend, 8)`): index of
the first segment bound the value fits under, 8 when out of range. -/
def segSearch (v : Nat) : Nat :=
  if v ≤ 0x3F then 0
  else if v ≤ 0x7F then 1
  else if v ≤ 0xFF then 2
  else if v ≤ 0x1FF then 3
  else if v ≤ 0x3FF then 4
  else if v ≤ 0x7FF then 5
  else if v ≤ 0xFFF then 6
  else if v ≤ 0x1FFF then 7
  else 8

/-- `st_linear2ulaw` of audioop.c: encode one 16-bit linear sample to an
8-bit mu-law code (input arithmetic-shifted right by 2 to the 14-bit
range, CLIP 8159, bias 33). -/
def st_linear2ulaw (pcm : Int) : Nat :=
  let p := Int.fdiv pcm 4
  let mask : Nat := if p < 0 then 0x7F else 0xFF
  let m0 := if p < 0 then -p else p
  let m1 := if m0 > 8159 then (8159 : Int) else m0
  let mv := (m1 + 33).toNat
  let seg := segSearch mv
  if seg ≥ 8 then 0x7F ^^^ mask
  else (((seg <<< 4) ||| ((mv >>> (seg + 1)) &&& 0xF)) ^^^ mask)

/-- Emit phase of `audioop.ratecv`'s main loop, fuelled for structural
recursion: while `d ≥ 0`, output
`(prev*d + cur*(outrate-d)) / outrate` (at 32-bit scale, truncated
toward zero, then arithmetic-shifted down 16 and cast to int16) and
decrease `d` by `inrate`.  Returns the outputs and the final `d`. -/
def rcEmitN (inrate outrate prev cur : Int) : Nat → Int → List Int × Int
  | 0, d => ([], d)
  | fuel + 1, d =>
    if 0 ≤ d then
      let out := toInt16 (Int.fdiv (Int.tdiv (prev * d + cur * (outrate - d)) outrate) 65536)
      let r := rcEmitN inrate outrate prev cur fuel (d - inrate)
      (out :: r.1, r.2)
    else ([], d)

/-- The emit phase with enough fuel: when `1 ≤ inrate`, `d` falls below
zero after at most `d.toNat + 1` emissions, so this equals the
unbounded `while d >= 0` loop of audioop.c. -/
def rcEmit (inrate outrate prev cur d : Int) : List Int × Int :=
  rcEmitN inrate outrate prev cur (d.toNat + 1) d

/-- Consume phase of `audioop.ratecv`'s main loop: take one input frame
(`prev_i = cur_i; cur_i = sample << 16`, the weightA=1/weightB=0 filter
being the identity), add `outrate` to `d`, run the emit phase, repeat
until the input is exhausted.  The carried `_prev` mirrors audioop.c's
`prev_i`, which is overwritten before every emission. -/
def rcConsume (inrate outrate : Int) (_prev cur d : Int) : List Int → List Int
  | [] => []
  | x :: xs =>
    let c2 := x * 65536
    let e := rcEmit inrate outrate cur c2 (d + outrate)
    e.1 ++ rcConsume inrate outrate cur c2 e.2 xs

/-- `audioop.ratecv(fragment, 2, 1, inrate, outrate, None)` on a frame
list: rates must be positive (else ValueError), are reduced by their
gcd, and the loop starts from `d = -outrate` with zero previous and
current samples (state None). -/
def ratecv (inrate outrate : Nat) (xs : List Int) : Option (List Int) :=
  if inrate = 0 ∨ outrate = 0 then none
  else
    let g := Nat.gcd inrate outrate
    some (rcConsume (inrate / g : Nat) (outrate / g : Nat) 0 0 (-((outrate / g : Nat) : Int)) xs)

/-- `mulaw_to_pcm` (services/voice.py lines 20-46): decode mu-law bytes
to 16-bit PCM at 8 kHz (`audioop.ulaw2lin(mulaw_data, 2)`, one sample
per input byte, never failing), then resample 8000 to 16000
(`audioop.ratecv`).  The result is the output byte string. -/
def mulaw_to_pcm (mulaw_data : List Nat) : Option (List Nat) :=
  let pcm_8khz := samplesToBytes (mulaw_data.map st_ulaw2linear16)
  (bytesToSamples pcm_8khz).bind fun frames =>
    (ratecv 8000 16000 frames).map samplesToBytes

/-- `pcm_to_mulaw` (services/voice.py lines 49-79): if the declared
source rate is not 8000, resample down to 8000 first
(`audioop.ratecv`), then encode to mu-law (`audioop.lin2ulaw(..., 2)`,
one output byte per 16-bit frame).  Both paths fail exactly when the
input byte count is not a whole number of 16-bit frames. -/
def pcm_to_mulaw (pcm_data : List Nat) (sample_rate : Nat) : Option (List Nat) :=
  if sample_rate ≠ 8000 then
    (bytesToSamples pcm_data).bind fun frames =>
      (ratecv sample_rate 8000 frames).map fun out => out.map st_linear2ulaw
  else
    (bytesToSamples pcm_data).map fun frames => frames.map st_linear2ulaw

-- sanity examples: 2 mu-law bytes decode to 3 wide samples (6 bytes);
-- the round trip through 16000 Hz restores the byte count
example : (mulaw_to_pcm [0xFF, 0xFF]).map List.length = some 6 := by decide
example :
    ((mulaw_to_pcm [10, 20, 30]).bind fun w => pcm_to_mulaw w 16000).map List.length =
      some 3 := by decide
example : pcm_to_mulaw [0] 24000 = none := by decide
example : pcm_to_mulaw [0] 8000 = none := by decide

/-! ## Playback streamer (stream_audio_to_twilio_websocket,
services/voice.py lines 324-365)

The function slices the mu-law byte string into `chunk_size` pieces
(default 160 = 20 ms of 8 kHz mu-law), base64-encodes each and sends it
as a `media` message, sleeping 0.02 s between consecutive chunks but
not after the last.  The observable behaviour is embedded as the
ordered list of transport actions; base64 encoding is elided (payloads
carry the raw chunk bytes). -/

inductive TxAction where
  | sendMedia (payload : List Nat)
  | sleepMs (ms : Nat)
deriving DecidableEq

/-- The Python slicing `[audio[i:i+size] for i in range(0, len(audio), size)]`,
fuelled for structural recursion (for `1 ≤ size`, fuel `audio.length`
is enough since every step drops at least one byte). -/
def chunkN (size : Nat) : Nat → List Nat → List (List Nat)
  | _, [] => []
  | 0, _ :: _ => []
  | fuel + 1, x :: rest => (x :: rest).take size :: chunkN size fuel ((x :: rest).drop size)

def chunkAudio (size : Nat) (audio : List Nat) : List (List Nat) :=
  chunkN size audio.length audio

/-- The send loop (voice.py lines 345-363): send each chunk in order;
`if i < len(chunks) - 1: await asyncio.sleep(0.02)` puts a 20 ms pause
after every chunk except the last. -/
def paceOut : List (List Nat) → List TxAction
  | [] => []
  | [c] => [TxAction.sendMedia c]
  | c :: c2 :: cs =>
    TxAction.sendMedia c :: TxAction.sleepMs 20 :: paceOut (c2 :: cs)

def stream_audio_to_twilio_websocket (audio_mulaw : List Nat) : List TxAction :=
  paceOut (chunkAudio 160 audio_mulaw)

/-- The payloads sent, in order. -/
def sentFrames : List TxAction → List (List Nat)
  | [] => []
  | TxAction.sendMedia c :: r => c :: sentFrames r
  | TxAction.sleepMs _ :: r => sentFrames r

/-- The pacing pauses, in order. -/
def sleepsOf : List TxAction → List Nat
  | [] => []
  | TxAction.sendMedia _ :: r => sleepsOf r
  | TxAction.sleepMs m :: r => m :: sleepsOf r

/-- No two sends are adjacent: every pair of consecutive frames is
separated by a pacing pause. -/
def pacedApart : List TxAction → Bool
  | [] => true
  | [_] => true
  | TxAction.sendMedia _ :: TxAction.sendMedia _ :: _ => false
  | TxAction.sendMedia _ :: TxAction.sleepMs m :: rest =>
    pacedApart (TxAction.sleepMs m :: rest)
  | TxAction.sleepMs _ :: r :: rest => pacedApart (r :: rest)

-- sanity examples: 400 bytes make chunks of 160, 160, 80
set_option maxRecDepth 8000 in
example :
    (chunkAudio 160 (List.replicate 400 7)).map List.length = [160, 160, 80] := by decide
set_option maxRecDepth 8000 in
example :
    sleepsOf (stream_audio_to_twilio_websocket (List.replicate 400 7)) = [20, 20] := by
  decide
set_option maxRecDepth 8000 in
example : pacedApart (stream_audio_to_twilio_websocket (List.replicate 400 7)) = true := by
  decide

/-! ## Helper lemmas about the registry -/

theorem lookupCall_setCall_self (reg : Registry) (sid : String) (v : Session) :
    lookupCall (setCall reg sid v) sid = some v := by
  induction reg with
  | nil => simp [setCall, lookupCall]
  | cons p rest ih =>
    by_cases h : p.1 = sid
    · simp [setCall, lookupCall, h]
    · simp [setCall, lookupCall, h, ih]

theorem setCall_of_lookup_none (reg : Registry) (sid : String) (v : Session)
    (h : lookupCall reg sid = none) : setCall reg sid v = reg ++ [(sid, v)] := by
  induction reg with
  | nil => simp [setCall]
  | cons p rest ih =>
    by_cases hp : p.1 = sid
    · simp [lookupCall, hp] at h
    · simp [lookupCall, hp] at h
      simp [setCall, hp, ih h]

theorem countP_of_lookup_none (reg : Registry) (sid : String)
    (h : lookupCall reg sid = none) :
    List.countP (fun p => p.1 == sid) reg = 0 := by
  induction reg with
  | nil => simp
  | cons p rest ih =>
    by_cases hp : p.1 = sid
    · simp [lookupCall, hp] at h
    · simp [lookupCall, hp] at h
      simp [List.countP_cons, hp, ih h]

theorem setCall_append_self (reg : Registry) (sid : String) (x y : Session)
    (h : lookupCall reg sid = none) :
    setCall (reg ++ [(sid, x)]) sid y = reg ++ [(sid, y)] := by
  induction reg with
  | nil => simp [setCall]
  | cons p rest ih =>
    by_cases hp : p.1 = sid
    · simp [lookupCall, hp] at h
    · simp [lookupCall, hp] at h
      simp [setCall, hp, ih h]

theorem lookupCall_append_self (reg : Registry) (sid : String) (y : Session)
    (h : lookupCall reg sid = none) :
    lookupCall (reg ++ [(sid, y)]) sid = some y := by
  induction reg with
  | nil => simp [lookupCall]
  | cons p rest ih =>
    by_cases hp : p.1 = sid
    · simp [lookupCall, hp] at h
    · simp [lookupCall, hp] at h
      simp [lookupCall, hp, ih h]

/-! ## Concrete sessions used by witnesses and counterexamples -/

/-- A session with no cycle in flight. -/
def sessionIdle : Session := mkSession "MZ100" "+15550100"

/-- A session whose turn lock is held by an in-flight cycle. -/
def sessionBusy : Session := { mkSession "MZ100" "+15550100" with is_processing := true }

/-! ## Claims about the turn controller -/

/-- Claim C1: per session, at most one response cycle is in flight:
the turn lock `is_processing` goes false-to-true only when the guard of
`process_agent_response` accepts an utterance, true-to-false only when
a cycle's body finishes (its `finally`, reached on success and on
failure alike), the body always leaves the lock cleared, and an accept
against a held lock drops the utterance and changes nothing. -/
theorem turn_lock_single_cycle (s : Session) (ev : TurnEv) :
    ((s.is_processing = false ∧ (turnStep s ev).is_processing = true) →
      ∃ msg, ev = TurnEv.accept msg ∧ (tryAcceptTurn s).2 = TurnResult.accepted) ∧
    ((s.is_processing = true ∧ (turnStep s ev).is_processing = false) →
      ∃ msg gen, ev = TurnEv.finish msg gen) ∧
    (∀ msg gen, ((runTurnBody s msg gen).1).is_processing = false) ∧
    (s.is_processing = true → tryAcceptTurn s = (s, TurnResult.dropped)) := by
  have hbody : ∀ msg gen, ((runTurnBody s msg gen).1).is_processing = false := by
    intro msg gen
    cases gen <;> simp [runTurnBody]
  refine ⟨?_, ?_, hbody, ?_⟩
  · rintro ⟨h1, h2⟩
    cases ev with
    | accept msg => exact ⟨msg, rfl, by simp [tryAcceptTurn, h1]⟩
    | finish msg gen =>
      rw [turnStep, hbody msg gen] at h2
      cases h2
  · rintro ⟨h1, h2⟩
    cases ev with
    | accept msg => simp [turnStep, tryAcceptTurn, h1] at h2
    | finish msg gen => exact ⟨msg, gen, rfl⟩
  · intro h1
    simp [tryAcceptTurn, h1]

theorem turn_lock_single_cycle_witness :
    (∃ msg, TurnEv.accept "hello" = TurnEv.accept msg ∧
      (tryAcceptTurn sessionIdle).2 = TurnResult.accepted) ∧
    tryAcceptTurn sessionBusy = (sessionBusy, TurnResult.dropped) :=
  ⟨(turn_lock_single_cycle sessionIdle (TurnEv.accept "hello")).1 (by decide),
   (turn_lock_single_cycle sessionBusy (TurnEv.accept "hello")).2.2.2 (by decide)⟩

/-- Claim C2: a finalized utterance arriving while the session's turn
lock is true is dropped by `process_agent_response`: the registry (and
with it the session's transcript log) is unchanged, no cycle starts and
nothing is handed to playback. -/
theorem locked_utterance_dropped (reg : Registry) (call_sid user_message : String)
    (genResult : Option String) (s : Session)
    (hs : lookupCall reg call_sid = some s) (hlock : s.is_processing = true) :
    process_agent_response reg call_sid user_message genResult =
      (reg, TurnResult.dropped, []) := by
  simp [process_agent_response, hs, hlock]

theorem locked_utterance_dropped_witness :
    process_agent_response [("CA77", sessionBusy)] "CA77" "are you there?" (some "Yes") =
      ([("CA77", sessionBusy)], TurnResult.dropped, []) :=
  locked_utterance_dropped [("CA77", sessionBusy)] "CA77" "are you there?" (some "Yes")
    sessionBusy (by decide) (by decide)

/-- Claim C9: when the response generator fails (`agent.run` raises),
the accepted cycle plays exactly the fixed fallback apology phrase, and
the turn lock is cleared at the end of the cycle whether generation
succeeded or failed. -/
theorem generator_failure_fallback (reg : Registry) (call_sid user_message : String)
    (s : Session) (hs : lookupCall reg call_sid = some s)
    (hlock : s.is_processing = false) :
    (∃ s1, process_agent_response reg call_sid user_message none =
        (setCall reg call_sid s1, TurnResult.accepted, [fallbackText]) ∧
        s1.is_processing = false) ∧
    (∀ reply, ∃ s2, process_agent_response reg call_sid user_message (some reply) =
        (setCall reg call_sid s2, TurnResult.accepted, [reply]) ∧
        s2.is_processing = false) := by
  constructor
  · refine ⟨{ s with
        transcript := s.transcript ++ ["Customer: " ++ user_message],
        is_processing := false }, ?_, rfl⟩
    simp [process_agent_response, hs, hlock, tryAcceptTurn, runTurnBody]
  · intro reply
    refine ⟨{ s with
        transcript := s.transcript ++ ["Customer: " ++ user_message, "Agent: " ++ reply],
        is_processing := false }, ?_, rfl⟩
    simp [process_agent_response, hs, hlock, tryAcceptTurn, runTurnBody]

theorem generator_failure_fallback_witness :
    ∃ s1, process_agent_response [("CA9", sessionIdle)] "CA9" "tee time" none =
      (setCall [("CA9", sessionIdle)] "CA9" s1, TurnResult.accepted, [fallbackText]) ∧
      s1.is_processing = false :=
  (generator_failure_fallback [("CA9", sessionIdle)] "CA9" "tee time" sessionIdle
    (by decide) (by decide)).1

/-- Claim C10: on a failed cycle, the only transcript mutation is the
caller entry appended before generation was attempted; no agent entry
is appended and the played fallback phrase is not recorded.  Other
session fields besides the lock are untouched. -/
theorem generator_failure_transcript_frame (reg : Registry)
    (call_sid user_message : String) (s : Session)
    (hs : lookupCall reg call_sid = some s) (hlock : s.is_processing = false) :
    ∃ s1, process_agent_response reg call_sid user_message none =
      (setCall reg call_sid s1, TurnResult.accepted, [fallbackText]) ∧
      s1.transcript = s.transcript ++ ["Customer: " ++ user_message] ∧
      s1.transcript_buffer = s.transcript_buffer ∧
      s1.stream_sid = s.stream_sid ∧
      s1.from_number = s.from_number ∧
      s1.is_processing = false := by
  refine ⟨{ s with
      transcript := s.transcript ++ ["Customer: " ++ user_message],
      is_processing := false }, ?_, rfl, rfl, rfl, rfl, rfl⟩
  simp [process_agent_response, hs, hlock, tryAcceptTurn, runTurnBody]

theorem generator_failure_transcript_frame_witness :
    ∃ s1, process_agent_response [("CA10", sessionIdle)] "CA10" "hello" none =
      (setCall [("CA10", sessionIdle)] "CA10" s1, TurnResult.accepted, [fallbackText]) ∧
      s1.transcript = sessionIdle.transcript ++ ["Customer: " ++ "hello"] ∧
      s1.transcript_buffer = sessionIdle.transcript_buffer ∧
      s1.stream_sid = sessionIdle.stream_sid ∧
      s1.from_number = sessionIdle.from_number ∧
      s1.is_processing = false :=
  generator_failure_transcript_frame [("CA10", sessionIdle)] "CA10" "hello" sessionIdle
    (by decide) (by decide)

/-! ## Claims about session creation and the transcript router -/

/-- Registry after a `start` for call "CA1" from "+15550001" followed by
a duplicate `start` for the same call id from "+15550002". -/
def dupStartReg : Registry :=
  media_stream_start (media_stream_start [] "CA1" "MS1" "+15550001") "CA1" "MS2" "+15550002"

/-- Counterexample to claim C3: after a duplicate `start` with the same
call id, exactly one session exists, but its caller context (here the
caller number captured from the event) is the one from the SECOND
event — the start branch overwrites the session instead of rejecting
or ignoring the duplicate. -/
theorem duplicate_start_not_first_context :
    dupStartReg.map Prod.fst = ["CA1"] ∧
    (lookupCall dupStartReg "CA1").map Session.from_number = some "+15550002" ∧
    ¬ (lookupCall dupStartReg "CA1").map Session.from_number = some "+15550001" := by
  decide

/-- Claim C3 as amended: duplicate session creation is last-writer-wins.
After a `start` for a fresh call id followed by a duplicate `start`
with the same id, exactly one session exists for that id, and its state
(caller context included) is the one rebuilt from the duplicate event,
with transcript and buffer reset. -/
theorem duplicate_start_single_session (reg : Registry)
    (sid ss1 fn1 ss2 fn2 : String) (hfresh : lookupCall reg sid = none) :
    List.countP (fun p => p.1 == sid)
        (media_stream_start (media_stream_start reg sid ss1 fn1) sid ss2 fn2) = 1 ∧
    lookupCall (media_stream_start (media_stream_start reg sid ss1 fn1) sid ss2 fn2) sid =
      some (mkSession ss2 fn2) := by
  have h1 : media_stream_start reg sid ss1 fn1 = reg ++ [(sid, mkSession ss1 fn1)] :=
    setCall_of_lookup_none reg sid _ hfresh
  have h2 : media_stream_start (media_stream_start reg sid ss1 fn1) sid ss2 fn2 =
      reg ++ [(sid, mkSession ss2 fn2)] := by
    rw [h1]
    exact setCall_append_self reg sid _ _ hfresh
  rw [h2]
  constructor
  · have hc := countP_of_lookup_none reg sid hfresh
    simp [List.countP_append, hc]
  · exact lookupCall_append_self reg sid _ hfresh

theorem duplicate_start_single_session_witness :
    List.countP (fun p => p.1 == "CA1")
        (media_stream_start (media_stream_start [] "CA1" "MS1" "+15550001")
          "CA1" "MS2" "+15550002") = 1 ∧
    lookupCall (media_stream_start (media_stream_start [] "CA1" "MS1" "+15550001")
        "CA1" "MS2" "+15550002") "CA1" = some (mkSession "MS2" "+15550002") :=
  duplicate_start_single_session [] "CA1" "MS1" "+15550001" "MS2" "+15550002" rfl

/-- Registry holding one session whose turn lock is held, for the C4
counterexample. -/
def busyReg : Registry := [("CB", sessionBusy)]

/-- Counterexample to claim C4: a fragment with `is_final = true` and
non-whitespace text arriving while the session's turn lock is true is
NOT appended to the transcript log as a caller turn — the log stays
empty — although the claim promises the append for every such
fragment. -/
theorem final_fragment_not_always_logged :
    (pyStrip "hello there" ≠ "") ∧
    (lookupCall (on_transcript_then_process busyReg "CB" "hello there" true (some "Hi")).1
        "CB").map Session.transcript = some [] := by
  decide

/-- Claim C4 as amended: for a fragment with `is_final = true` and
non-empty trimmed text, the text is recorded in the session's
`transcript_buffer` and handed to the turn controller exactly once; it
is appended to the transcript log as a caller turn exactly when the
turn lock was free (the controller accepts).  Empty or whitespace-only
finalized fragments, and non-final fragments, are discarded with no
side effects. -/
theorem final_fragment_routing (reg : Registry) (call_sid text : String)
    (genResult : Option String) (s : Session)
    (hs : lookupCall reg call_sid = some s) (hne : pyStrip text ≠ "") :
    (∃ s1, lookupCall (on_transcript_then_process reg call_sid text true genResult).1
          call_sid = some s1 ∧
        s1.transcript_buffer = s.transcript_buffer ++ [text] ∧
        (on_transcript_then_process reg call_sid text true genResult).2.1 =
          some (if s.is_processing then TurnResult.dropped else TurnResult.accepted) ∧
        (s.is_processing = true → s1.transcript = s.transcript) ∧
        (s.is_processing = false →
          s1.transcript = s.transcript ++ ("Customer: " ++ text) ::
            (match genResult with
             | some reply => ["Agent: " ++ reply]
             | none => []))) ∧
    (∀ t, pyStrip t = "" →
      on_transcript_then_process reg call_sid t true genResult = (reg, none, [])) ∧
    (∀ t, on_transcript_then_process reg call_sid t false genResult = (reg, none, [])) := by
  refine ⟨?_, ?_, ?_⟩
  · have hbuf : on_transcript reg call_sid text true =
        (setCall reg call_sid
          { s with transcript_buffer := s.transcript_buffer ++ [text] }, true) := by
      simp [on_transcript, hne, hs]
    by_cases hlock : s.is_processing
    · refine ⟨{ s with transcript_buffer := s.transcript_buffer ++ [text] }, ?_, rfl, ?_, ?_, ?_⟩
      · simp [on_transcript_then_process, hbuf, process_agent_response,
          lookupCall_setCall_self, hlock, lookupCall_setCall_self]
      · simp [on_transcript_then_process, hbuf, process_agent_response,
          lookupCall_setCall_self, hlock]
      · intro _; rfl
      · intro hc; rw [hlock] at hc; cases hc
    · refine ⟨{ s with
          transcript_buffer := s.transcript_buffer ++ [text],
          transcript := s.transcript ++ ("Customer: " ++ text) ::
            (match genResult with
             | some reply => ["Agent: " ++ reply]
             | none => []),
          is_processing := false }, ?_, rfl, ?_, ?_, ?_⟩
      · cases genResult <;>
          simp [on_transcript_then_process, hbuf, process_agent_response,
            lookupCall_setCall_self, hlock, tryAcceptTurn, runTurnBody]
      · cases genResult <;>
          simp [on_transcript_then_process, hbuf, process_agent_response,
            lookupCall_setCall_self, hlock, tryAcceptTurn, runTurnBody]
      · intro hc; rw [hc] at hlock; cases hlock rfl
      · intro _; rfl
  · intro t ht
    simp [on_transcript_then_process, on_transcript, ht]
  · intro t
    simp [on_transcript_then_process, on_transcript]

theorem final_fragment_routing_witness :
    ∃ s1, lookupCall
        (on_transcript_then_process [("CC", sessionIdle)] "CC" "book nine holes" true
          (some "Sure")).1 "CC" = some s1 ∧
      s1.transcript_buffer = sessionIdle.transcript_buffer ++ ["book nine holes"] ∧
      (on_transcript_then_process [("CC", sessionIdle)] "CC" "book nine holes" true
          (some "Sure")).2.1 =
        some (if sessionIdle.is_processing then TurnResult.dropped
          else TurnResult.accepted) ∧
      (sessionIdle.is_processing = true → s1.transcript = sessionIdle.transcript) ∧
      (sessionIdle.is_processing = false →
        s1.transcript = sessionIdle.transcript ++ ("Customer: " ++ "book nine holes") ::
          (match some "Sure" with
           | some reply => ["Agent: " ++ reply]
           | none => [])) :=
  (final_fragment_routing [("CC", sessionIdle)] "CC" "book nine holes" (some "Sure")
    sessionIdle (by decide) (by decide)).1

/-! ## Lemmas about the playback streamer -/

theorem chunkN_flatten (size : Nat) (hsize : 0 < size) :
    ∀ (fuel : Nat) (xs : List Nat), xs.length ≤ fuel →
      (chunkN size fuel xs).flatten = xs := by
  intro fuel
  induction fuel with
  | zero =>
    intro xs hlen
    cases xs with
    | nil => rfl
    | cons x rest => simp at hlen
  | succ fuel ih =>
    intro xs hlen
    cases xs with
    | nil => rfl
    | cons x rest =>
      have hdrop : ((x :: rest).drop size).length ≤ fuel := by
        rw [List.length_drop]
        simp only [List.length_cons] at hlen ⊢
        omega
      simp [chunkN, ih _ hdrop]

theorem chunkN_length_le (size : Nat) :
    ∀ (fuel : Nat) (xs : List Nat) (c : List Nat), c ∈ chunkN size fuel xs →
      c.length ≤ size := by
  intro fuel
  induction fuel with
  | zero =>
    intro xs c hc
    cases xs <;> simp [chunkN] at hc
  | succ fuel ih =>
    intro xs c hc
    cases xs with
    | nil => simp [chunkN] at hc
    | cons x rest =>
      simp only [chunkN, List.mem_cons] at hc
      rcases hc with hc | hc
      · subst hc
        rw [List.length_take]
        exact Nat.min_le_left _ _
      · exact ih _ _ hc

theorem chunkN_eq_nil_iff (size : Nat) :
    ∀ (fuel : Nat) (xs : List Nat), xs.length ≤ fuel →
      (chunkN size fuel xs = [] ↔ xs = []) := by
  intro fuel
  induction fuel with
  | zero =>
    intro xs hlen
    cases xs with
    | nil => simp [chunkN]
    | cons x rest => simp at hlen
  | succ fuel _ =>
    intro xs _
    cases xs with
    | nil => simp [chunkN]
    | cons x rest => simp [chunkN]

theorem chunkN_dropLast_length (size : Nat) (hsize : 0 < size) :
    ∀ (fuel : Nat) (xs : List Nat), xs.length ≤ fuel →
      ∀ c ∈ (chunkN size fuel xs).dropLast, c.length = size := by
  intro fuel
  induction fuel with
  | zero =>
    intro xs hlen c hc
    cases xs with
    | nil => simp [chunkN] at hc
    | cons x rest => simp at hlen
  | succ fuel ih =>
    intro xs hlen c hc
    cases xs with
    | nil => simp [chunkN] at hc
    | cons x rest =>
      rw [chunkN] at hc
      have hdrop : ((x :: rest).drop size).length ≤ fuel := by
        rw [List.length_drop]
        simp only [List.length_cons] at hlen ⊢
        omega
      by_cases hr : chunkN size fuel ((x :: rest).drop size) = []
      · rw [hr] at hc
        simp at hc
      · rw [List.dropLast_cons_of_ne_nil hr] at hc
        rcases List.mem_cons.mp hc with hc | hc
        · subst hc
          have hne : (x :: rest).drop size ≠ [] := by
            intro h
            rw [h] at hr
            exact hr (by cases fuel <;> rfl)
          have hlt : size < (x :: rest).length := by
            by_contra hle
            exact hne (List.drop_eq_nil_of_le (Nat.le_of_not_lt hle))
          rw [List.length_take]
          omega
        · exact ih _ hdrop c hc

theorem sentFrames_paceOut : ∀ cs : List (List Nat), sentFrames (paceOut cs) = cs
  | [] => rfl
  | [_] => rfl
  | c :: c2 :: cs' => by
    have ih := sentFrames_paceOut (c2 :: cs')
    simp only [paceOut, sentFrames]
    rw [ih]

theorem sleepsOf_paceOut :
    ∀ cs : List (List Nat), sleepsOf (paceOut cs) = List.replicate (cs.length - 1) 20
  | [] => rfl
  | [_] => rfl
  | c :: c2 :: cs' => by
    have ih := sleepsOf_paceOut (c2 :: cs')
    simp only [paceOut, sleepsOf, List.length_cons] at ih ⊢
    rw [ih]
    simp [List.replicate_succ]

theorem pacedApart_paceOut : ∀ cs : List (List Nat), pacedApart (paceOut cs) = true
  | [] => rfl
  | [_] => rfl
  | _ :: c2 :: cs' => by
    cases cs' with
    | nil => rfl
    | cons c3 cs'' =>
      have ih := pacedApart_paceOut (c2 :: c3 :: cs'')
      simp only [paceOut, pacedApart] at ih ⊢
      exact ih

/-- Claim C8: the playback streamer splits the narrowband bytes into
frames of the fixed 20 ms size (160 bytes of 8 kHz mu-law): every frame
except possibly the last is exactly 160 bytes, every frame is at most
160 bytes, the frames concatenate back to the input, and the frames are
sent one at a time with a 20 ms pause between every two consecutive
sends (one fewer pause than frames, no pause after the last; never a
burst of adjacent sends). -/
theorem playback_framing (audio_mulaw : List Nat) :
    (sentFrames (stream_audio_to_twilio_websocket audio_mulaw)).flatten = audio_mulaw ∧
    (∀ c ∈ sentFrames (stream_audio_to_twilio_websocket audio_mulaw), c.length ≤ 160) ∧
    (∀ c ∈ (sentFrames (stream_audio_to_twilio_websocket audio_mulaw)).dropLast,
      c.length = 160) ∧
    sleepsOf (stream_audio_to_twilio_websocket audio_mulaw) =
      List.replicate
        ((sentFrames (stream_audio_to_twilio_websocket audio_mulaw)).length - 1) 20 ∧
    pacedApart (stream_audio_to_twilio_websocket audio_mulaw) = true := by
  have hsf : sentFrames (stream_audio_to_twilio_websocket audio_mulaw) =
      chunkAudio 160 audio_mulaw := sentFrames_paceOut _
  refine ⟨?_, ?_, ?_, ?_, ?_⟩
  · rw [hsf]
    exact chunkN_flatten 160 (by omega) _ audio_mulaw le_rfl
  · rw [hsf]
    intro c hc
    exact chunkN_length_le 160 _ _ c hc
  · rw [hsf]
    exact chunkN_dropLast_length 160 (by omega) _ audio_mulaw le_rfl
  · rw [hsf]
    exact sleepsOf_paceOut _
  · exact pacedApart_paceOut _

/-! ## Lemmas about the audio codec -/

theorem int16OfBytes_split (s : Int) :
    int16OfBytes ((s % 65536).toNat % 256) ((s % 65536).toNat / 256) = toInt16 s := by
  simp only [int16OfBytes, toInt16]
  have h : (s % 65536).toNat % 256 % 256 + 256 * ((s % 65536).toNat / 256 % 256) =
      (s % 65536).toNat := by omega
  rw [h]

theorem samplesToBytes_length (ss : List Int) :
    (samplesToBytes ss).length = 2 * ss.length := by
  induction ss with
  | nil => rfl
  | cons s ss ih =>
    simp only [samplesToBytes, List.map_cons, List.flatten_cons, List.length_append,
      List.length_cons, List.length_nil, bytesOfInt16] at ih ⊢
    omega

theorem bytesToSamples_samplesToBytes (ss : List Int) :
    bytesToSamples (samplesToBytes ss) = some (ss.map toInt16) := by
  induction ss with
  | nil => rfl
  | cons s ss ih =>
    have hsb : samplesToBytes (s :: ss) =
        (s % 65536).toNat % 256 :: (s % 65536).toNat / 256 :: samplesToBytes ss := by
      simp [samplesToBytes, bytesOfInt16]
    rw [hsb]
    simp only [bytesToSamples, ih, Option.map_some]
    simp [int16OfBytes_split]

theorem bytesToSamples_isSome :
    ∀ bs : List Nat, (bytesToSamples bs).isSome ↔ bs.length % 2 = 0
  | [] => by simp [bytesToSamples]
  | [_] => by simp [bytesToSamples]
  | lo :: hi :: rest => by
    have ih := bytesToSamples_isSome rest
    simp only [bytesToSamples, Option.isSome_map', List.length_cons] at ih ⊢
    rw [ih]
    omega

theorem bytesToSamples_length :
    ∀ (bs : List Nat) (ss : List Int), bytesToSamples bs = some ss →
      bs.length = 2 * ss.length
  | [], ss, h => by
    simp only [bytesToSamples, Option.some.injEq] at h
    subst h
    rfl
  | [_], ss, h => by simp [bytesToSamples] at h
  | lo :: hi :: rest, ss, h => by
    simp only [bytesToSamples, Option.map_eq_some'] at h
    obtain ⟨ts, hts, hss⟩ := h
    have ih := bytesToSamples_length rest ts hts
    subst hss
    simp only [List.length_cons]
    omega

theorem rcConsume_one_two_len :
    ∀ (xs : List Int) (p c : Int), (rcConsume 1 2 p c (-1) xs).length = 2 * xs.length
  | [], _, _ => rfl
  | x :: xs, p, c => by
    have ih := rcConsume_one_two_len xs c (x * 65536)
    have e1 : (rcEmit 1 2 c (x * 65536) (-1 + 2)).1.length = 2 := rfl
    have e2 : (rcEmit 1 2 c (x * 65536) (-1 + 2)).2 = -1 := rfl
    simp only [rcConsume, List.length_append, List.length_cons]
    rw [e1, e2, ih]
    omega

theorem rcConsume_one_two_init :
    ∀ (xs : List Int) (p c : Int), (rcConsume 1 2 p c (-2) xs).length = 2 * xs.length - 1
  | [], _, _ => rfl
  | x :: xs, p, c => by
    have ih := rcConsume_one_two_len xs c (x * 65536)
    have e1 : (rcEmit 1 2 c (x * 65536) (-2 + 2)).1.length = 1 := rfl
    have e2 : (rcEmit 1 2 c (x * 65536) (-2 + 2)).2 = -1 := rfl
    simp only [rcConsume, List.length_append, List.length_cons]
    rw [e1, e2, ih]
    omega

theorem rcConsume_two_one_len :
    ∀ (xs : List Int) (p c : Int),
      (rcConsume 2 1 p c (-1) xs).length = (xs.length + 1) / 2 ∧
      (rcConsume 2 1 p c (-2) xs).length = xs.length / 2
  | [], _, _ => ⟨rfl, rfl⟩
  | x :: xs, p, c => by
    have ih := rcConsume_two_one_len xs c (x * 65536)
    constructor
    · have e1 : (rcEmit 2 1 c (x * 65536) (-1 + 1)).1.length = 1 := rfl
      have e2 : (rcEmit 2 1 c (x * 65536) (-1 + 1)).2 = -2 := rfl
      simp only [rcConsume, List.length_append, List.length_cons]
      rw [e1, e2, ih.2]
      omega
    · have e1 : (rcEmit 2 1 c (x * 65536) (-2 + 1)).1.length = 0 := rfl
      have e2 : (rcEmit 2 1 c (x * 65536) (-2 + 1)).2 = -1 := rfl
      simp only [rcConsume, List.length_append, List.length_cons]
      rw [e1, e2, ih.1]
      omega

theorem ratecv_8000_16000 (xs : List Int) :
    ratecv 8000 16000 xs = some (rcConsume 1 2 0 0 (-2) xs) := rfl

theorem ratecv_16000_8000 (xs : List Int) :
    ratecv 16000 8000 xs = some (rcConsume 2 1 0 0 (-1) xs) := rfl

theorem ratecv_isSome (inrate outrate : Nat) (hi : inrate ≠ 0) (ho : outrate ≠ 0)
    (xs : List Int) : (ratecv inrate outrate xs).isSome := by
  simp [ratecv, hi, ho]

theorem mulaw_to_pcm_eq (b : List Nat) :
    mulaw_to_pcm b = some (samplesToBytes
      (rcConsume 1 2 0 0 (-2) ((b.map st_ulaw2linear16).map toInt16))) := by
  simp [mulaw_to_pcm, bytesToSamples_samplesToBytes, ratecv_8000_16000]

theorem mulaw_to_pcm_length (b : List Nat) :
    (mulaw_to_pcm b).map List.length = some (2 * (2 * b.length - 1)) := by
  rw [mulaw_to_pcm_eq]
  simp [samplesToBytes_length, rcConsume_one_two_init, List.length_map]

/-! ## Claims about the audio codec -/

/-- Claim C6: `mulaw_to_pcm` decodes one 16-bit sample per narrowband
byte and resamples 8000 to 16000: for `n` input bytes the output always
exists and holds `2*(2*n - 1)` bytes, i.e. `2n - 1` 16-bit samples —
the sample count is `2n` within one sample of drift, the byte count
`4n` within two bytes. -/
theorem narrowToWide_sample_counts (mulaw_data : List Nat) :
    ∃ out, mulaw_to_pcm mulaw_data = some out ∧
      out.length = 2 * (2 * mulaw_data.length - 1) ∧
      out.length % 2 = 0 ∧
      4 * mulaw_data.length ≤ out.length + 2 ∧ out.length ≤ 4 * mulaw_data.length ∧
      2 * mulaw_data.length ≤ out.length / 2 + 1 ∧
      out.length / 2 ≤ 2 * mulaw_data.length := by
  refine ⟨_, mulaw_to_pcm_eq mulaw_data, ?_, ?_, ?_, ?_, ?_, ?_⟩ <;>
    simp only [samplesToBytes_length, rcConsume_one_two_init, List.length_map] <;>
    omega

/-- Claim C5: the round trip `pcm_to_mulaw (mulaw_to_pcm x) 16000`
always succeeds and returns exactly as many narrowband bytes (samples)
as `x` has — duration is preserved within the claimed one-sample
resampling tolerance (here exactly) — and both conversions are
deterministic functions of their input bytes. -/
theorem codec_round_trip_duration (x : List Nat) :
    ((mulaw_to_pcm x).bind fun w => pcm_to_mulaw w 16000).map List.length =
      some x.length ∧
    (∀ y : List Nat, x = y →
      mulaw_to_pcm x = mulaw_to_pcm y ∧
      ∀ sample_rate, pcm_to_mulaw x sample_rate = pcm_to_mulaw y sample_rate) := by
  constructor
  · rw [mulaw_to_pcm_eq]
    simp only [Option.some_bind]
    rw [pcm_to_mulaw]
    simp only [if_pos (by omega : (16000 : Nat) ≠ 8000)]
    rw [bytesToSamples_samplesToBytes]
    simp only [Option.some_bind]
    rw [ratecv_16000_8000]
    simp only [Option.map_some', Option.some.injEq, List.length_map]
    rw [(rcConsume_two_one_len _ 0 0).1]
    simp only [List.length_map, rcConsume_one_two_init]
    omega
  · rintro y rfl
    exact ⟨rfl, fun _ => rfl⟩

theorem codec_round_trip_duration_witness :
    ((mulaw_to_pcm [7, 8, 9]).bind fun w => pcm_to_mulaw w 16000).map List.length =
      some 3 ∧
    mulaw_to_pcm [7, 8, 9] = mulaw_to_pcm [7, 8, 9] :=
  ⟨(codec_round_trip_duration [7, 8, 9]).1,
   ((codec_round_trip_duration [7, 8, 9]).2 [7, 8, 9] rfl).1⟩

/-- Claim C7: `pcm_to_mulaw` fails exactly on inputs whose byte count
is not a whole number of 16-bit frames (odd), for every positive
declared source rate including 8000, and `mulaw_to_pcm` succeeds on
every input byte string (the empty one included). -/
theorem codec_failure_exactly_odd (sample_rate : Nat) (hrate : 0 < sample_rate) :
    (∀ pcm_data : List Nat,
      (pcm_to_mulaw pcm_data sample_rate).isSome ↔ pcm_data.length % 2 = 0) ∧
    ∀ mulaw_data : List Nat, (mulaw_to_pcm mulaw_data).isSome := by
  constructor
  · intro pcm_data
    rw [pcm_to_mulaw]
    by_cases h8 : sample_rate = 8000
    · simp only [h8, if_neg (by omega : ¬ ((8000 : Nat) ≠ 8000))]
      rw [← bytesToSamples_isSome pcm_data]
      cases bytesToSamples pcm_data <;> simp
    · simp only [if_pos h8]
      rw [← bytesToSamples_isSome pcm_data]
      cases hbs : bytesToSamples pcm_data with
      | none => simp
      | some frames =>
        simpa [Option.isSome_map'] using
          ratecv_isSome sample_rate 8000 (by omega) (by omega) frames
  · intro mulaw_data
    rw [mulaw_to_pcm_eq]
    rfl

theorem codec_failure_exactly_odd_witness :
    ((pcm_to_mulaw [0] 24000).isSome ↔ [0].length % 2 = 0) ∧
    (mulaw_to_pcm []).isSome :=
  ⟨(codec_failure_exactly_odd 24000 (by omega)).1 [0],
   (codec_failure_exactly_odd 24000 (by omega)).2 []⟩
